import Mathlib

/-!
Shallow embedding of the cell-annotation core of `price-parser-tui`
(`src/models/cell_state.py` and `src/widgets/price_table.py`), together
with theorems settling the specification claims about it.

Conventions of the embedding:
* Python `int` is `Int`; Python `str` is `String`; `Optional[T]` is `Option T`.
* The Python `dict[(int, int), CellState]` is an insertion-ordered entry
  list `List ((Int × Int) × CellState)`; dict lookup and the in-place
  mutation of one entry are `dictGet` and `dictSetColor` below.
* The pandas/CSV decoding step is an external collaborator (spec section 4.3):
  `load_csv` receives its outcome as `Option (columns × rows)`; `none`
  models a decode failure (the exception is raised by the very first
  statement of the `try` block, before any field of the widget is
  assigned, so the handler returns `False` with the state untouched).
* UI-only calls (`DataTable.clear`, `add_column`, `add_row`,
  `_refresh_cell_display`, `notify`) render nothing in the model.
-/

namespace PriceParser

/-- Embeds `CellPosition` (`models/cell_state.py`): the position of a cell, two ints. -/
structure CellPosition where
  row : Int
  column : Int
  deriving DecidableEq, Repr

/-- Embeds `CellState` (`models/cell_state.py`): position, textual content, and an
optional hex color, `None` until set. -/
structure CellState where
  position : CellPosition
  content : String
  color : Option String := none
  deriving DecidableEq, Repr

/-- The JSON-serializable dict produced by `CellState.to_dict`. -/
structure CellRecord where
  position : CellPosition
  content : String
  color : Option String
  deriving DecidableEq, Repr

/-- Embeds `CellState.to_dict` (`models/cell_state.py`). -/
def CellState.to_dict (st : CellState) : CellRecord :=
  { position := st.position, content := st.content, color := st.color }

/-- Embeds `SelectionRange` (`models/cell_state.py`): a pydantic model with four
int fields and no validator, so construction never fails and imposes no
relation between the fields. -/
structure SelectionRange where
  start_row : Int
  start_col : Int
  end_row : Int
  end_col : Int
  deriving DecidableEq, Repr

/-- Python `range(a, b)` over ints: `a, a+1, ..., b-1`; empty when `b ≤ a`. -/
def intRange (a b : Int) : List Int :=
  (List.range (b - a).toNat).map (fun (i : Nat) => a + (i : Int))

/-- Embeds `SelectionRange.contains`: closed-interval membership on both axes. -/
def SelectionRange.contains (sel : SelectionRange) (row col : Int) : Bool :=
  decide (sel.start_row ≤ row ∧ row ≤ sel.end_row) &&
  decide (sel.start_col ≤ col ∧ col ≤ sel.end_col)

/-- Embeds `SelectionRange.get_cells`: nested loops, rows outer, columns inner,
both `range(start, end + 1)`, appending `(row, col)` pairs in order. -/
def SelectionRange.get_cells (sel : SelectionRange) : List (Int × Int) :=
  (intRange sel.start_row (sel.end_row + 1)).flatMap
    (fun row => (intRange sel.start_col (sel.end_col + 1)).map (fun col => (row, col)))

/-- Python dict lookup `d.get(k)`: first entry with the key, if any. -/
def dictGet (k : Int × Int) : List ((Int × Int) × CellState) → Option CellState
  | [] => none
  | kv :: rest => if kv.1 = k then some kv.2 else dictGet k rest

/-- The body of `set_cell_color`: `if (row, col) in d: d[(row, col)].color = color`.
The first entry with the key gets its `color` field overwritten; an absent
key leaves the dict as it was. -/
def dictSetColor (k : Int × Int) (color : String) :
    List ((Int × Int) × CellState) → List ((Int × Int) × CellState)
  | [] => []
  | kv :: rest =>
    if kv.1 = k then (kv.1, { kv.2 with color := some color }) :: rest
    else kv :: dictSetColor k color rest

/-- The inner loop of `load_csv` (lines 50–56): for `col_idx, (col_name, value)`
in `enumerate(zip(columns, row))`, insert a fresh `CellState` with that
content and unset color at key `(row_idx, col_idx)`. -/
def buildRow (ri : Nat) : Nat → List (String × String) → List ((Int × Int) × CellState)
  | _, [] => []
  | ci, pair :: rest =>
    (((ri : Int), (ci : Int)),
      { position := { row := (ri : Int), column := (ci : Int) },
        content := pair.2, color := none }) :: buildRow ri (ci + 1) rest

/-- The outer loop of `load_csv` (lines 45–56): `row_idx` counts up from 0
(the default pandas range index), each row contributing its cells in
column order. -/
def buildRows (cols : List String) : Nat → List (List String) → List ((Int × Int) × CellState)
  | _, [] => []
  | ri, row :: rest => buildRow ri 0 (cols.zip row) ++ buildRows cols (ri + 1) rest

/-- Embeds the `PriceTable` state (`widgets/price_table.py` `__init__`): the sparse
cell-state dict, the current file, the parsed frame, the transient
selection set, and the last clicked coordinate. -/
structure PriceTable where
  cell_states : List ((Int × Int) × CellState) := []
  current_file : Option String := none
  df : Option (List String × List (List String)) := none
  selected_cells : Finset (Int × Int) := ∅
  last_clicked : Option (Int × Int) := none
  deriving DecidableEq

/-- The freshly constructed widget (`__init__`). -/
def initTable : PriceTable :=
  { cell_states := [], current_file := none, df := none,
    selected_cells := ∅, last_clicked := none }

/-- Embeds `load_csv`: `parsed` is the outcome of the external `pd.read_csv`
collaborator. On decode failure (`none`) the exception fires before any
assignment, the handler notifies and returns `False`, every field keeping
its prior value. On success the frame and file are assigned, the dict and
the selection set are cleared, and the cell states are rebuilt row-major;
`last_clicked` is not touched by `load_csv`. -/
def load_csv (t : PriceTable) (filepath : String)
    (parsed : Option (List String × List (List String))) : PriceTable × Bool :=
  match parsed with
  | none => (t, false)
  | some (cols, rows) =>
    ({ cell_states := buildRows cols 0 rows,
       current_file := some filepath,
       df := some (cols, rows),
       selected_cells := ∅,
       last_clicked := t.last_clicked }, true)

/-- Embeds `get_cell_state`: `self.cell_states.get((row, col))`. -/
def get_cell_state (t : PriceTable) (row col : Int) : Option CellState :=
  dictGet (row, col) t.cell_states

/-- Embeds `set_cell_color`: guarded in-place color overwrite; the display
refresh is a UI no-op. -/
def set_cell_color (t : PriceTable) (row col : Int) (color : String) : PriceTable :=
  { t with cell_states := dictSetColor (row, col) color t.cell_states }

/-- Embeds `set_range_color`: `for row, col in selection.get_cells(): self.set_cell_color(row, col, color)`. -/
def set_range_color (t : PriceTable) (selection : SelectionRange) (color : String) : PriceTable :=
  selection.get_cells.foldl (fun acc rc => set_cell_color acc rc.1 rc.2 color) t

/-- Python truthiness of an `Optional[str]`: `None` and `""` are falsy,
every other string truthy. -/
def pyTruthy : Option String → Bool
  | none => false
  | some s => s != ""

/-- The JSON object produced by `export_to_json`:
`{ "file": ..., "cells": [...] }`. -/
structure ExportPayload where
  file : Option String
  cells : List CellRecord
  deriving DecidableEq, Repr

/-- Embeds `export_to_json`: the file identity plus, for each dict entry in
order, `state.to_dict()` whenever `if state.color:` holds. -/
def export_to_json (t : PriceTable) : ExportPayload :=
  { file := t.current_file,
    cells := t.cell_states.filterMap
      (fun kv => if pyTruthy kv.2.color then some kv.2.to_dict else none) }

/-- Embeds the `on_click` toggle core (lines 97–103): record `last_clicked`, then
remove the coordinate from `selected_cells` if present, else add it. The
handler is annotated `-> None` and returns `None` on every path, embedded
as `none : Option Bool`. -/
def on_click (t : PriceTable) (row col : Int) : PriceTable × Option Bool :=
  let t1 : PriceTable := { t with last_clicked := some (row, col) }
  if (row, col) ∈ t1.selected_cells then
    ({ t1 with selected_cells := t1.selected_cells.erase (row, col) }, none)
  else
    ({ t1 with selected_cells := insert (row, col) t1.selected_cells }, none)

/-- Modelled from the spec: the entry-level effect of `clear_color` — the
first entry with the key, when present, gets its color field reset to
`None`, symmetrically to `dictSetColor`. -/
def dictClearColor (k : Int × Int) :
    List ((Int × Int) × CellState) → List ((Int × Int) × CellState)
  | [] => []
  | kv :: rest =>
    if kv.1 = k then (kv.1, { kv.2 with color := none }) :: rest
    else kv :: dictClearColor k rest

/-- Modelled from the spec: `clear_color(row, col)` "sets `color` back to
unset" (spec section 4.4). No such method exists in `PriceTable` in `src/`; the
spec attributes its use to the excluded color-picker UI workflow. It is
modelled symmetrically to `set_cell_color`: the guarded entry, when
present, gets its color field reset to `None`. -/
def clear_color (t : PriceTable) (row col : Int) : PriceTable :=
  { t with cell_states := dictClearColor (row, col) t.cell_states }

/-! ### Dictionary lemmas -/

theorem dictGet_append (k : Int × Int) (a b : List ((Int × Int) × CellState)) :
    dictGet k (a ++ b) = (dictGet k a).or (dictGet k b) := by
  induction a with
  | nil => simp [dictGet]
  | cons kv rest ih =>
    by_cases h : kv.1 = k
    · simp [dictGet, h]
    · simp [dictGet, h, ih]

theorem dictGet_eq_none_iff (k : Int × Int) (l : List ((Int × Int) × CellState)) :
    dictGet k l = none ↔ ∀ kv ∈ l, kv.1 ≠ k := by
  induction l with
  | nil => simp [dictGet]
  | cons kv rest ih =>
    by_cases h : kv.1 = k
    · simp [dictGet, h]
    · simp [dictGet, h, ih]

theorem dictGet_some_mem {k : Int × Int} {l : List ((Int × Int) × CellState)}
    {v : CellState} (h : dictGet k l = some v) : (k, v) ∈ l := by
  induction l with
  | nil => simp [dictGet] at h
  | cons kv rest ih =>
    by_cases hk : kv.1 = k
    · simp [dictGet, hk] at h
      have hkv : kv = (k, v) := by
        rw [← hk, ← h]
      rw [← hkv]
      exact List.mem_cons_self _ _
    · simp [dictGet, hk] at h
      exact List.mem_cons_of_mem _ (ih h)

theorem dictGet_of_mem_nodup {k : Int × Int} {l : List ((Int × Int) × CellState)}
    {v : CellState} (hnd : (l.map Prod.fst).Nodup) (hm : (k, v) ∈ l) :
    dictGet k l = some v := by
  induction l with
  | nil => simp at hm
  | cons kv rest ih =>
    simp only [List.map_cons, List.nodup_cons] at hnd
    rcases List.mem_cons.mp hm with heq | hmem
    · rw [← heq]
      simp [dictGet]
    · have hk : kv.1 ≠ k := by
        intro hk
        exact hnd.1 (hk ▸ (List.mem_map.mpr ⟨(k, v), hmem, rfl⟩))
      simp [dictGet, hk, ih hnd.2 hmem]

theorem dictSetColor_keys (k : Int × Int) (c : String)
    (l : List ((Int × Int) × CellState)) :
    (dictSetColor k c l).map Prod.fst = l.map Prod.fst := by
  induction l with
  | nil => rfl
  | cons kv rest ih =>
    by_cases h : kv.1 = k
    · simp [dictSetColor, h]
    · simp [dictSetColor, h, ih]

theorem dictSetColor_of_absent {k : Int × Int} {l : List ((Int × Int) × CellState)}
    (c : String) (h : dictGet k l = none) : dictSetColor k c l = l := by
  induction l with
  | nil => rfl
  | cons kv rest ih =>
    by_cases hk : kv.1 = k
    · simp [dictGet, hk] at h
    · simp [dictGet, hk] at h
      simp [dictSetColor, hk, ih h]

theorem dictGet_setColor_self (k : Int × Int) (c : String)
    (l : List ((Int × Int) × CellState)) :
    dictGet k (dictSetColor k c l) =
      (dictGet k l).map (fun st => { st with color := some c }) := by
  induction l with
  | nil => rfl
  | cons kv rest ih =>
    by_cases hk : kv.1 = k
    · simp [dictSetColor, dictGet, hk]
    · simp [dictSetColor, dictGet, hk, ih]

theorem dictGet_setColor_other {k q : Int × Int} (c : String)
    (l : List ((Int × Int) × CellState)) (h : q ≠ k) :
    dictGet q (dictSetColor k c l) = dictGet q l := by
  have hkq : ¬(k = q) := fun he => h he.symm
  induction l with
  | nil => rfl
  | cons kv rest ih =>
    by_cases hk : kv.1 = k
    · simp [dictSetColor, dictGet, hk, hkq]
    · by_cases hq : kv.1 = q
      · simp [dictSetColor, dictGet, hk, hq, h, hkq]
      · simp [dictSetColor, dictGet, hk, hq, ih]

theorem dictSetColor_entries {k : Int × Int} {c : String}
    {l : List ((Int × Int) × CellState)} {kv : (Int × Int) × CellState}
    (h : kv ∈ dictSetColor k c l) :
    ∃ kv2 ∈ l, kv.1 = kv2.1 ∧ kv.2.position = kv2.2.position := by
  induction l with
  | nil => simp [dictSetColor] at h
  | cons hd rest ih =>
    by_cases hk : hd.1 = k
    · simp only [dictSetColor, if_pos hk] at h
      rcases List.mem_cons.mp h with heq | hmem
      · exact ⟨hd, List.mem_cons_self _ _, by rw [heq], by rw [heq]⟩
      · exact ⟨kv, List.mem_cons_of_mem _ hmem, rfl, rfl⟩
    · simp only [dictSetColor, if_neg hk] at h
      rcases List.mem_cons.mp h with heq | hmem
      · exact ⟨hd, List.mem_cons_self _ _, by rw [heq], by rw [heq]⟩
      · rcases ih hmem with ⟨kv2, hkv2, h1, h2⟩
        exact ⟨kv2, List.mem_cons_of_mem _ hkv2, h1, h2⟩

theorem dictGet_clearColor_self (k : Int × Int)
    (l : List ((Int × Int) × CellState)) :
    dictGet k (dictClearColor k l) =
      (dictGet k l).map (fun st => { st with color := none }) := by
  induction l with
  | nil => rfl
  | cons kv rest ih =>
    by_cases hk : kv.1 = k
    · simp [dictClearColor, dictGet, hk]
    · simp [dictClearColor, dictGet, hk, ih]

/-! ### Lemmas about the cell-state build of `load_csv` -/

theorem buildRow_key_bounds {ri ci : Nat} {pairs : List (String × String)}
    {kv : (Int × Int) × CellState} (h : kv ∈ buildRow ri ci pairs) :
    kv.1.1 = (ri : Int) ∧ (ci : Int) ≤ kv.1.2 ∧ kv.1.2 < (ci : Int) + pairs.length := by
  induction pairs generalizing ci with
  | nil => simp [buildRow] at h
  | cons pair rest ih =>
    rcases List.mem_cons.mp h with heq | hmem
    · rw [heq]
      refine ⟨rfl, le_refl _, ?_⟩
      simp only [List.length_cons]
      omega
    · rcases ih hmem with ⟨h1, h2, h3⟩
      simp only [List.length_cons] at h3 ⊢
      push_cast at h2 h3 ⊢
      exact ⟨h1, by omega, by omega⟩

theorem buildRows_key_bounds {cols : List String} {ri : Nat} {rows : List (List String)}
    {kv : (Int × Int) × CellState} (h : kv ∈ buildRows cols ri rows) :
    (ri : Int) ≤ kv.1.1 ∧ kv.1.1 < (ri : Int) + rows.length ∧
      0 ≤ kv.1.2 ∧ kv.1.2 < (cols.length : Int) := by
  induction rows generalizing ri with
  | nil => simp [buildRows] at h
  | cons row rest ih =>
    rcases List.mem_append.mp h with hmem | hmem
    · rcases buildRow_key_bounds hmem with ⟨h1, h2, h3⟩
      have hz : ((cols.zip row).length : Int) ≤ (cols.length : Int) := by
        have := List.length_zip cols row
        omega
      simp only [List.length_cons] at *
      push_cast at h1 h2 h3 ⊢
      exact ⟨by omega, by omega, by omega, by omega⟩
    · rcases ih hmem with ⟨h1, h2, h3, h4⟩
      simp only [List.length_cons] at *
      push_cast at h1 h2 ⊢
      exact ⟨by omega, by omega, h3, h4⟩

theorem buildRow_keys_nodup (ri ci : Nat) (pairs : List (String × String)) :
    ((buildRow ri ci pairs).map Prod.fst).Nodup := by
  induction pairs generalizing ci with
  | nil => simp [buildRow]
  | cons pair rest ih =>
    simp only [buildRow, List.map_cons, List.nodup_cons]
    refine ⟨?_, ih (ci + 1)⟩
    intro hmem
    rcases List.mem_map.mp hmem with ⟨kv, hkv, hfst⟩
    rcases buildRow_key_bounds hkv with ⟨_, h2, _⟩
    rw [hfst] at h2
    push_cast at h2
    omega

theorem buildRows_keys_nodup (cols : List String) (ri : Nat) (rows : List (List String)) :
    ((buildRows cols ri rows).map Prod.fst).Nodup := by
  induction rows generalizing ri with
  | nil => simp [buildRows]
  | cons row rest ih =>
    simp only [buildRows, List.map_append]
    refine List.Nodup.append (buildRow_keys_nodup ri 0 _) (ih (ri + 1)) ?_
    intro k hk1 hk2
    rcases List.mem_map.mp hk1 with ⟨kv1, hkv1, hf1⟩
    rcases List.mem_map.mp hk2 with ⟨kv2, hkv2, hf2⟩
    rcases buildRow_key_bounds hkv1 with ⟨h1, _, _⟩
    rcases buildRows_key_bounds hkv2 with ⟨h2, _, _, _⟩
    rw [hf1] at h1
    rw [hf2] at h2
    push_cast at h1 h2
    omega

theorem buildRow_entries {ri ci : Nat} {pairs : List (String × String)}
    {kv : (Int × Int) × CellState} (h : kv ∈ buildRow ri ci pairs) :
    kv.2.position = { row := kv.1.1, column := kv.1.2 } ∧ kv.2.color = none := by
  induction pairs generalizing ci with
  | nil => simp [buildRow] at h
  | cons pair rest ih =>
    rcases List.mem_cons.mp h with heq | hmem
    · rw [heq]
      exact ⟨rfl, rfl⟩
    · exact ih hmem

theorem buildRows_entries {cols : List String} {ri : Nat} {rows : List (List String)}
    {kv : (Int × Int) × CellState} (h : kv ∈ buildRows cols ri rows) :
    kv.2.position = { row := kv.1.1, column := kv.1.2 } ∧ kv.2.color = none := by
  induction rows generalizing ri with
  | nil => simp [buildRows] at h
  | cons row rest ih =>
    rcases List.mem_append.mp h with hmem | hmem
    · exact buildRow_entries hmem
    · exact ih hmem

theorem dictGet_buildRow_in (ri : Nat) (pairs : List (String × String)) :
    ∀ (ci c : Nat), c < pairs.length →
      dictGet ((ri : Int), ((ci + c : Nat) : Int)) (buildRow ri ci pairs) =
        some { position := { row := (ri : Int), column := ((ci + c : Nat) : Int) },
               content := (pairs.getD c default).2, color := none } := by
  induction pairs with
  | nil => intro ci c hc; simp at hc
  | cons pair rest ih =>
    intro ci c hc
    match c with
    | 0 =>
      simp [buildRow, dictGet]
    | Nat.succ c0 =>
      have hkey : ¬(((ri : Int), ((ci : Nat) : Int)) = ((ri : Int), ((ci + (c0 + 1) : Nat) : Int))) := by
        intro he
        have := congrArg Prod.snd he
        simp at this
        omega
      simp only [buildRow, dictGet, if_neg hkey, List.getD_cons_succ]
      have harg : (ci + (c0 + 1) : Nat) = ((ci + 1) + c0 : Nat) := by omega
      rw [harg]
      exact ih (ci + 1) c0 (by simpa using hc)

theorem zip_getD_snd (cols row : List String) (c : Nat)
    (hc : c < cols.length) (hr : c < row.length) :
    ((cols.zip row).getD c default).2 = row.getD c "" := by
  induction cols generalizing row c with
  | nil => simp at hc
  | cons col crest ih =>
    match row, c with
    | [], _ => simp at hr
    | v :: vrest, 0 => simp [List.zip]
    | v :: vrest, Nat.succ c0 =>
      simp only [List.zip_cons_cons, List.getD_cons_succ]
      exact ih vrest c0 (by simpa using hc) (by simpa using hr)

theorem dictGet_buildRows_in (cols : List String) (rows : List (List String))
    (hlen : ∀ row ∈ rows, row.length = cols.length) :
    ∀ (ri i c : Nat), i < rows.length → c < cols.length →
      dictGet (((ri + i : Nat) : Int), (c : Int)) (buildRows cols ri rows) =
        some { position := { row := ((ri + i : Nat) : Int), column := (c : Int) },
               content := (rows.getD i []).getD c "", color := none } := by
  induction rows with
  | nil => intro ri i c hi _; simp at hi
  | cons row rest ih =>
    intro ri i c hi hc
    have hrowlen : row.length = cols.length := hlen row (List.mem_cons_self _ _)
    match i with
    | 0 =>
      have hzlen : c < (cols.zip row).length := by
        simp [List.length_zip]
        omega
      have hfront := dictGet_buildRow_in ri (cols.zip row) 0 c hzlen
      simp only [Nat.zero_add] at hfront
      simp only [buildRows, dictGet_append, Nat.add_zero, hfront, Option.or_some,
        List.getD_cons_zero]
      rw [zip_getD_snd cols row c hc (by omega)]
    | Nat.succ i0 =>
      have hfront : dictGet (((ri + (i0 + 1) : Nat) : Int), (c : Int))
          (buildRow ri 0 (cols.zip row)) = none := by
        rw [dictGet_eq_none_iff]
        intro kv hkv he
        rcases buildRow_key_bounds hkv with ⟨h1, _, _⟩
        rw [he] at h1
        simp at h1
        omega
      simp only [buildRows, dictGet_append, hfront, Option.none_or, List.getD_cons_succ]
      have harg : (ri + (i0 + 1) : Nat) = ((ri + 1) + i0 : Nat) := by omega
      rw [harg]
      exact ih (fun r hr => hlen r (List.mem_cons_of_mem _ hr)) (ri + 1) i0 c
        (by simpa using hi) hc

theorem dictGet_buildRows_out (cols : List String) (rows : List (List String))
    (r c : Int)
    (hout : ¬(0 ≤ r ∧ r < (rows.length : Int) ∧ 0 ≤ c ∧ c < (cols.length : Int))) :
    dictGet (r, c) (buildRows cols 0 rows) = none := by
  rw [dictGet_eq_none_iff]
  intro kv hkv he
  rcases buildRows_key_bounds hkv with ⟨h1, h2, h3, h4⟩
  rw [he] at h1 h2 h3 h4
  simp only [Int.natCast_zero, zero_add] at h1 h2
  omega

/-! ### Store invariant and reachability -/

/-- Invariant of every reachable `cell_states` dict: keys are unique, and
the `position` field of each entry agrees with its key. -/
def storeInv (l : List ((Int × Int) × CellState)) : Prop :=
  (l.map Prod.fst).Nodup ∧
    ∀ kv ∈ l, kv.2.position = { row := kv.1.1, column := kv.1.2 }

/-- Operations of the claim "any sequence of load and set-color
operations": a load (with the external parse outcome) or a single-cell or
range color set. -/
inductive Op where
  | load (filepath : String) (parsed : Option (List String × List (List String)))
  | setColor (row col : Int) (color : String)
  | setRange (sel : SelectionRange) (color : String)

/-- One operation applied to the widget state. -/
def applyOp (t : PriceTable) : Op → PriceTable
  | .load fp parsed => (load_csv t fp parsed).1
  | .setColor row col color => set_cell_color t row col color
  | .setRange sel color => set_range_color t sel color

/-- The state after a sequence of operations on a fresh widget. -/
def run (ops : List Op) : PriceTable := ops.foldl applyOp initTable

theorem storeInv_buildRows (cols : List String) (rows : List (List String)) :
    storeInv (buildRows cols 0 rows) :=
  ⟨buildRows_keys_nodup cols 0 rows, fun _ hkv => (buildRows_entries hkv).1⟩

theorem storeInv_setColor {l : List ((Int × Int) × CellState)}
    (k : Int × Int) (c : String) (h : storeInv l) :
    storeInv (dictSetColor k c l) := by
  refine ⟨by rw [dictSetColor_keys]; exact h.1, ?_⟩
  intro kv hkv
  rcases dictSetColor_entries hkv with ⟨kv2, hkv2, h1, h2⟩
  rw [h2, h1]
  exact h.2 kv2 hkv2

theorem storeInv_set_cell_color {t : PriceTable} (row col : Int) (color : String)
    (h : storeInv t.cell_states) :
    storeInv (set_cell_color t row col color).cell_states :=
  storeInv_setColor _ _ h

theorem storeInv_set_range_color {t : PriceTable} (sel : SelectionRange) (color : String)
    (h : storeInv t.cell_states) :
    storeInv (set_range_color t sel color).cell_states := by
  unfold set_range_color
  induction sel.get_cells generalizing t with
  | nil => exact h
  | cons rc rest ih => exact ih (storeInv_set_cell_color rc.1 rc.2 color h)

theorem storeInv_applyOp {t : PriceTable} (op : Op) (h : storeInv t.cell_states) :
    storeInv (applyOp t op).cell_states := by
  match op with
  | .load fp parsed =>
    match parsed with
    | none => exact h
    | some (cols, rows) => exact storeInv_buildRows cols rows
  | .setColor row col color => exact storeInv_set_cell_color row col color h
  | .setRange sel color => exact storeInv_set_range_color sel color h

theorem storeInv_foldl (ops : List Op) (t : PriceTable) (h : storeInv t.cell_states) :
    storeInv (ops.foldl applyOp t).cell_states := by
  induction ops generalizing t with
  | nil => exact h
  | cons op rest ih => exact ih _ (storeInv_applyOp op h)

theorem storeInv_run (ops : List Op) : storeInv (run ops).cell_states :=
  storeInv_foldl ops initTable ⟨List.nodup_nil, by simp [initTable]⟩

/-! ### Export lemmas -/

theorem pyTruthy_iff (o : Option String) :
    pyTruthy o = true ↔ o ≠ none ∧ o ≠ some "" := by
  match o with
  | none => simp [pyTruthy]
  | some s => simp [pyTruthy]

theorem export_cells_mem (t : PriceTable) (rec : CellRecord) :
    rec ∈ (export_to_json t).cells ↔
      ∃ kv ∈ t.cell_states, pyTruthy kv.2.color = true ∧ rec = kv.2.to_dict := by
  simp only [export_to_json, List.mem_filterMap]
  constructor
  · rintro ⟨kv, hkv, hsome⟩
    by_cases hc : pyTruthy kv.2.color = true
    · rw [if_pos hc] at hsome
      exact ⟨kv, hkv, hc, (Option.some_injective _ hsome).symm⟩
    · rw [if_neg hc] at hsome
      exact absurd hsome (by simp)
  · rintro ⟨kv, hkv, hc, hrec⟩
    exact ⟨kv, hkv, by rw [if_pos hc, hrec]⟩

/-- Under the store invariant, a record at position `(r, c)` occurs in the
export exactly when the store holds a truthily-colored state at that key. -/
theorem export_position_mem {t : PriceTable} (hinv : storeInv t.cell_states)
    (r c : Int) :
    (∃ rec ∈ (export_to_json t).cells, rec.position = { row := r, column := c }) ↔
      ∃ st, get_cell_state t r c = some st ∧ pyTruthy st.color = true := by
  constructor
  · rintro ⟨rec, hrec, hpos⟩
    rcases (export_cells_mem t rec).mp hrec with ⟨kv, hkv, hc, hdict⟩
    have hkey : kv.1 = (r, c) := by
      have hp := hinv.2 kv hkv
      rw [hdict] at hpos
      simp only [CellState.to_dict] at hpos
      rw [hp] at hpos
      have h1 := congrArg CellPosition.row hpos
      have h2 := congrArg CellPosition.column hpos
      simp at h1 h2
      exact Prod.ext h1 h2
    refine ⟨kv.2, ?_, hc⟩
    unfold get_cell_state
    rw [← hkey]
    exact dictGet_of_mem_nodup hinv.1 (by rw [← Prod.mk.eta (p := kv)] at hkv; exact hkv)
  · rintro ⟨st, hget, hc⟩
    have hmem : ((r, c), st) ∈ t.cell_states := dictGet_some_mem hget
    refine ⟨st.to_dict, (export_cells_mem t st.to_dict).mpr ⟨((r, c), st), hmem, hc, rfl⟩, ?_⟩
    have hp := hinv.2 _ hmem
    simp only [CellState.to_dict]
    rw [hp]

/-- Every cell state created by a load has unset color, so a fresh load
exports no cells. -/
theorem export_fresh_load (t : PriceTable) (fp : String)
    (cols : List String) (rows : List (List String)) :
    (export_to_json (load_csv t fp (some (cols, rows))).1).cells = [] := by
  simp only [export_to_json, load_csv]
  rw [List.filterMap_eq_nil_iff]
  intro kv hkv
  rw [(buildRows_entries hkv).2]
  simp [pyTruthy]

/-! ### Range and color-set lemmas -/

theorem mem_intRange (a b x : Int) : x ∈ intRange a b ↔ a ≤ x ∧ x < b := by
  unfold intRange
  rw [List.mem_map]
  constructor
  · rintro ⟨i, hi, rfl⟩
    rw [List.mem_range] at hi
    omega
  · rintro ⟨h1, h2⟩
    refine ⟨(x - a).toNat, ?_, ?_⟩
    · rw [List.mem_range]
      omega
    · omega

theorem mem_get_cells (sel : SelectionRange) (rc : Int × Int) :
    rc ∈ sel.get_cells ↔
      sel.start_row ≤ rc.1 ∧ rc.1 ≤ sel.end_row ∧
        sel.start_col ≤ rc.2 ∧ rc.2 ≤ sel.end_col := by
  simp only [SelectionRange.get_cells, List.mem_flatMap, List.mem_map]
  constructor
  · rintro ⟨row, hrow, col, hcol, rfl⟩
    rw [mem_intRange] at hrow hcol
    exact ⟨by omega, by omega, by omega, by omega⟩
  · rintro ⟨h1, h2, h3, h4⟩
    exact ⟨rc.1, (mem_intRange _ _ _).mpr ⟨h1, by omega⟩,
      rc.2, (mem_intRange _ _ _).mpr ⟨h3, by omega⟩, rfl⟩

theorem contains_iff_mem_get_cells (sel : SelectionRange) (row col : Int) :
    sel.contains row col = true ↔ (row, col) ∈ sel.get_cells := by
  rw [mem_get_cells]
  simp only [SelectionRange.contains, Bool.and_eq_true, decide_eq_true_eq]
  tauto

theorem get_set_cell_color_self (t : PriceTable) (r c : Int) (color : String) :
    get_cell_state (set_cell_color t r c color) r c =
      (get_cell_state t r c).map (fun st => { st with color := some color }) :=
  dictGet_setColor_self (r, c) color t.cell_states

theorem get_set_cell_color_other (t : PriceTable) {r c r2 c2 : Int} (color : String)
    (h : (r2, c2) ≠ (r, c)) :
    get_cell_state (set_cell_color t r c color) r2 c2 = get_cell_state t r2 c2 :=
  dictGet_setColor_other color t.cell_states h

theorem set_cell_color_absent {t : PriceTable} {r c : Int} (color : String)
    (h : get_cell_state t r c = none) : set_cell_color t r c color = t := by
  unfold set_cell_color
  rw [dictSetColor_of_absent color h]

theorem isSome_get_set_cell_color (t : PriceTable) (r c r2 c2 : Int) (color : String) :
    (get_cell_state (set_cell_color t r c color) r2 c2).isSome =
      (get_cell_state t r2 c2).isSome := by
  by_cases h : (r2, c2) = (r, c)
  · rcases Prod.mk.injEq .. ▸ h with ⟨h1, h2⟩
    subst h1
    subst h2
    rw [get_set_cell_color_self]
    cases get_cell_state t r2 c2 <;> rfl
  · rw [get_set_cell_color_other t color h]

/-- Effect of folding `set_cell_color` over a coordinate list: a present
cell listed at least once gets the color; everything else is untouched. -/
theorem get_foldl_set (color : String) (L : List (Int × Int)) (t : PriceTable)
    (q : Int × Int) :
    get_cell_state (L.foldl (fun acc rc => set_cell_color acc rc.1 rc.2 color) t) q.1 q.2 =
      if q ∈ L ∧ (get_cell_state t q.1 q.2).isSome then
        (get_cell_state t q.1 q.2).map (fun st => { st with color := some color })
      else get_cell_state t q.1 q.2 := by
  induction L generalizing t with
  | nil => simp
  | cons rc rest ih =>
    simp only [List.foldl_cons]
    rw [ih]
    by_cases hk : q = rc
    · subst hk
      have hset : get_cell_state (set_cell_color t q.1 q.2 color) q.1 q.2 =
          (get_cell_state t q.1 q.2).map (fun st => { st with color := some color }) :=
        get_set_cell_color_self t q.1 q.2 color
      rw [isSome_get_set_cell_color, hset]
      by_cases hs : (get_cell_state t q.1 q.2).isSome
      · have hidem : ((get_cell_state t q.1 q.2).map
              (fun st => { st with color := some color })).map
              (fun st => { st with color := some color }) =
            (get_cell_state t q.1 q.2).map (fun st => { st with color := some color }) := by
          cases get_cell_state t q.1 q.2 <;> rfl
        by_cases hrest : q ∈ rest
        · rw [if_pos ⟨hrest, hs⟩, if_pos ⟨List.mem_cons_self _ _, hs⟩, hidem]
        · rw [if_neg (fun hcon => hrest hcon.1), if_pos ⟨List.mem_cons_self _ _, hs⟩]
      · have hnone : get_cell_state t q.1 q.2 = none :=
          Option.not_isSome_iff_eq_none.mp hs
        rw [hnone]
        simp
    · have hk2 : (q.1, q.2) ≠ (rc.1, rc.2) := by simpa using hk
      have hother : get_cell_state (set_cell_color t rc.1 rc.2 color) q.1 q.2 =
          get_cell_state t q.1 q.2 := get_set_cell_color_other t color hk2
      rw [hother]
      have hmem : (q ∈ rc :: rest) ↔ (q ∈ rest) := by
        simp [List.mem_cons, hk]
      by_cases hcond : q ∈ rest ∧ (get_cell_state t q.1 q.2).isSome
      · rw [if_pos hcond, if_pos ⟨hmem.mpr hcond.1, hcond.2⟩]
      · rw [if_neg hcond, if_neg (fun hcon => hcond ⟨hmem.mp hcon.1, hcon.2⟩)]

/-- Keys absent from the store are skipped by the fold: folding over a
coordinate list equals folding over its in-bounds sublist. -/
theorem foldl_set_filter (color : String) (L : List (Int × Int)) (t : PriceTable) :
    L.foldl (fun acc rc => set_cell_color acc rc.1 rc.2 color) t =
      (L.filter (fun rc => (get_cell_state t rc.1 rc.2).isSome)).foldl
        (fun acc rc => set_cell_color acc rc.1 rc.2 color) t := by
  induction L generalizing t with
  | nil => rfl
  | cons rc rest ih =>
    simp only [List.foldl_cons, List.filter_cons]
    by_cases hs : (get_cell_state t rc.1 rc.2).isSome
    · rw [if_pos (by simpa using hs), List.foldl_cons, ih]
      have hfe : rest.filter (fun q => (get_cell_state (set_cell_color t rc.1 rc.2 color) q.1 q.2).isSome) =
          rest.filter (fun q => (get_cell_state t q.1 q.2).isSome) :=
        List.filter_congr (fun q _ => by rw [isSome_get_set_cell_color])
      rw [hfe]
    · have hnone : get_cell_state t rc.1 rc.2 = none := by
        cases hget : get_cell_state t rc.1 rc.2
        · rfl
        · rw [hget] at hs
          simp at hs
      rw [if_neg (by simpa using hs), set_cell_color_absent color hnone, ih]

/-! ### Shared concrete tables for witnesses -/

/-- The two-row example table of the spec scenarios, freshly loaded. -/
def sampleTable : PriceTable :=
  (load_csv initTable "prices.csv"
    (some (["name", "price"], [["Widget", "9.99"], ["Gadget", "14.50"]]))).1

/-! ### Claims -/

/-- C2: for all valid `(columns, rows)` inputs, after `load`, `get (r, c)`
returns a `CellState` whose content is the supplied textual value
`rows[r][c]` verbatim and whose color is unset, for every `r < len rows`
and `c < len columns`; `get` returns none for any coordinate outside those
bounds. -/
theorem C2_load_get (t : PriceTable) (fp : String) (cols : List String)
    (rows : List (List String))
    (hlen : ∀ row ∈ rows, row.length = cols.length) :
    (∀ r c : Nat, r < rows.length → c < cols.length →
      get_cell_state (load_csv t fp (some (cols, rows))).1 (r : Int) (c : Int) =
        some { position := { row := (r : Int), column := (c : Int) },
               content := (rows.getD r []).getD c "", color := none }) ∧
    (∀ r c : Int,
      ¬(0 ≤ r ∧ r < (rows.length : Int) ∧ 0 ≤ c ∧ c < (cols.length : Int)) →
      get_cell_state (load_csv t fp (some (cols, rows))).1 r c = none) := by
  constructor
  · intro r c hr hc
    have h := dictGet_buildRows_in cols rows hlen 0 r c hr hc
    simp only [Nat.zero_add] at h
    exact h
  · intro r c hout
    exact dictGet_buildRows_out cols rows r c hout

/-- Witness for C2 at the scenario table of the spec: `get (0, 1)` holds content
`"9.99"` with unset color, and `get (5, 5)` is none. -/
theorem C2_load_get_witness :
    get_cell_state sampleTable 0 1 =
      some { position := { row := 0, column := 1 }, content := "9.99", color := none } ∧
    get_cell_state sampleTable 5 5 = none := by
  constructor
  · exact (C2_load_get initTable "prices.csv" ["name", "price"]
      [["Widget", "9.99"], ["Gadget", "14.50"]] (by decide)).1 0 1 (by decide) (by decide)
  · exact (C2_load_get initTable "prices.csv" ["name", "price"]
      [["Widget", "9.99"], ["Gadget", "14.50"]] (by decide)).2 5 5 (by decide)

/-- C1 as stated is false: set-color with the empty string `""` yields a
reachable state whose cell `(0, 0)` has a set (non-`None`) color, yet the
exported `cells` sequence is empty. -/
theorem C1_counterexample :
    (∃ st, get_cell_state (run [Op.load "f.csv" (some (["a"], [["x"]])),
        Op.setColor 0 0 ""]) 0 0 = some st ∧ st.color ≠ none) ∧
    (export_to_json (run [Op.load "f.csv" (some (["a"], [["x"]])),
        Op.setColor 0 0 ""])).cells = [] := by
  refine ⟨⟨{ position := { row := 0, column := 0 }, content := "x", color := some "" },
    by decide, by decide⟩, by decide⟩

/-- C1 amended: for every store state reachable by load/set-color
operations, the export holds a record at a coordinate exactly when that
cell at that coordinate has a non-empty color string (the empty string counting
as unset); a fresh load exports an empty `cells` sequence. -/
theorem C1_export_exactly_colored (ops : List Op) (r c : Int) :
    ((∃ rec ∈ (export_to_json (run ops)).cells,
        rec.position = { row := r, column := c }) ↔
      (∃ st, get_cell_state (run ops) r c = some st ∧
        st.color ≠ none ∧ st.color ≠ some "")) ∧
    (∀ (t : PriceTable) (fp : String) (cols : List String) (rows : List (List String)),
      (export_to_json (load_csv t fp (some (cols, rows))).1).cells = []) := by
  constructor
  · rw [export_position_mem (storeInv_run ops) r c]
    constructor
    · rintro ⟨st, hget, hc⟩
      exact ⟨st, hget, (pyTruthy_iff st.color).mp hc⟩
    · rintro ⟨st, hget, hc⟩
      exact ⟨st, hget, (pyTruthy_iff st.color).mpr hc⟩
  · intro t fp cols rows
    exact export_fresh_load t fp cols rows

/-- Modelled from the spec: the row-major coordinate enumeration of the
range, rows outer ascending, columns inner ascending, both endpoints
inclusive (spec section 4.1). -/
def rangeCellsSpec (sel : SelectionRange) : List (Int × Int) :=
  (intRange sel.start_row (sel.end_row + 1)).flatMap
    (fun row => (intRange sel.start_col (sel.end_col + 1)).map (fun col => (row, col)))

/-- C3: `set_range_color` equals calling `set_cell_color` once per
coordinate of `get_cells` in its (row-major) order; coordinates absent
from the table are silently skipped (folding only over the present ones
gives the same state); pointwise, a present cell inside the range gets the
color and every other cell is untouched; and `get_cells` is the row-major
enumeration the spec gives. -/
theorem C3_set_range_color_refines (t : PriceTable) (sel : SelectionRange)
    (color : String) :
    (set_range_color t sel color =
      sel.get_cells.foldl (fun acc rc => set_cell_color acc rc.1 rc.2 color) t) ∧
    (set_range_color t sel color =
      (sel.get_cells.filter (fun rc => (get_cell_state t rc.1 rc.2).isSome)).foldl
        (fun acc rc => set_cell_color acc rc.1 rc.2 color) t) ∧
    (∀ q : Int × Int,
      get_cell_state (set_range_color t sel color) q.1 q.2 =
        if sel.contains q.1 q.2 = true ∧ (get_cell_state t q.1 q.2).isSome then
          (get_cell_state t q.1 q.2).map (fun st => { st with color := some color })
        else get_cell_state t q.1 q.2) ∧
    (sel.get_cells = rangeCellsSpec sel) := by
  refine ⟨rfl, foldl_set_filter color sel.get_cells t, ?_, rfl⟩
  intro q
  have hbase := get_foldl_set color sel.get_cells t q
  have hcc : (sel.contains q.1 q.2 = true) ↔ (q ∈ sel.get_cells) :=
    contains_iff_mem_get_cells sel q.1 q.2
  rw [show set_range_color t sel color =
    sel.get_cells.foldl (fun acc rc => set_cell_color acc rc.1 rc.2 color) t from rfl]
  rw [hbase]
  exact if_congr (and_congr_left' hcc.symm) rfl rfl

/-- C4 as stated is false: a `SelectionRange` with `start_row > end_row`
is constructed without any rejection (the pydantic model has no
validator), and its `get_cells` silently yields the empty iteration. -/
theorem C4_counterexample :
    (SelectionRange.mk 1 1 0 0).end_row < (SelectionRange.mk 1 1 0 0).start_row ∧
    (SelectionRange.mk 1 1 0 0).get_cells = [] := by
  refine ⟨by decide, by decide⟩

/-- C4 amended: construction of a `SelectionRange` is not validated; a
range with `start > end` on either axis constructs successfully and its
`get_cells` silently produces the empty iteration. -/
theorem C4_malformed_range_empty (sel : SelectionRange)
    (h : sel.end_row < sel.start_row ∨ sel.end_col < sel.start_col) :
    sel.get_cells = [] := by
  rw [List.eq_nil_iff_forall_not_mem]
  intro rc hrc
  rw [mem_get_cells] at hrc
  omega

/-- Witness for C4 at the malformed range `(1, 1, 0, 0)`. -/
theorem C4_malformed_range_empty_witness :
    (SelectionRange.mk 1 1 0 0).end_row < (SelectionRange.mk 1 1 0 0).start_row ∧
    (SelectionRange.mk 1 0 0 1).get_cells = [] :=
  ⟨by decide, C4_malformed_range_empty (SelectionRange.mk 1 0 0 1) (by decide)⟩

/-- C5: `set_cell_color` on a coordinate with no cell state (any
coordinate outside the loaded table) is a silent no-op: the whole widget
state is unchanged, `get` still answers none there, and the export payload
is unaffected. -/
theorem C5_oob_set_color_noop (t : PriceTable) (r c : Int) (color : String)
    (h : get_cell_state t r c = none) :
    set_cell_color t r c color = t ∧
    get_cell_state (set_cell_color t r c color) r c = none ∧
    export_to_json (set_cell_color t r c color) = export_to_json t := by
  have hid := set_cell_color_absent color h
  exact ⟨hid, by rw [hid]; exact h, by rw [hid]⟩

/-- Witness for C5: `set_color (5, 5, "#0000FF")` on the two-row sample
table is a no-op. -/
theorem C5_oob_set_color_noop_witness :
    set_cell_color sampleTable 5 5 "#0000FF" = sampleTable ∧
    get_cell_state (set_cell_color sampleTable 5 5 "#0000FF") 5 5 = none ∧
    export_to_json (set_cell_color sampleTable 5 5 "#0000FF") =
      export_to_json sampleTable :=
  C5_oob_set_color_noop sampleTable 5 5 "#0000FF" (by decide)

/-- C6: on a decode failure the loader reports failure (returns `false`)
and every component of the prior snapshot — cell states, columns (the
frame), current file identity, and selection — is untouched. -/
theorem C6_load_failure_unchanged (t : PriceTable) (fp : String) :
    (load_csv t fp none).1.cell_states = t.cell_states ∧
    (load_csv t fp none).1.df = t.df ∧
    (load_csv t fp none).1.current_file = t.current_file ∧
    (load_csv t fp none).1.selected_cells = t.selected_cells ∧
    (load_csv t fp none).2 = false :=
  ⟨rfl, rfl, rfl, rfl, rfl⟩

/-- C7: a second successful load rebuilds the store independently of the
prior snapshot (two widgets loading the same data agree cell for cell),
empties the selection set, and every cell state reachable via `get`
afterwards is one created by the new load. -/
theorem C7_reload_resets (t1 t2 : PriceTable) (fp1 fp2 : String)
    (cols : List String) (rows : List (List String)) :
    ((load_csv t1 fp1 (some (cols, rows))).1.cell_states =
      (load_csv t2 fp2 (some (cols, rows))).1.cell_states) ∧
    ((load_csv t1 fp1 (some (cols, rows))).1.selected_cells = ∅) ∧
    (∀ r c : Int, get_cell_state (load_csv t1 fp1 (some (cols, rows))).1 r c =
      get_cell_state (load_csv t2 fp2 (some (cols, rows))).1 r c) ∧
    (∀ (r c : Int) (st : CellState),
      get_cell_state (load_csv t1 fp1 (some (cols, rows))).1 r c = some st →
      ((r, c), st) ∈ buildRows cols 0 rows) :=
  ⟨rfl, rfl, fun _ _ => rfl, fun _ _ _ h => dictGet_some_mem h⟩

/-- Witness for C7: after reloading the sample data over a widget that
already holds a colored cell, `get (0, 0)` yields a state of the new
build. -/
theorem C7_reload_resets_witness :
    get_cell_state (load_csv (set_cell_color sampleTable 0 0 "#FF0000") "b.csv"
        (some (["a"], [["x"]]))).1 0 0 =
      some { position := { row := 0, column := 0 }, content := "x", color := none } ∧
    ((((0 : Int), (0 : Int)),
        ({ position := { row := 0, column := 0 }, content := "x", color := none } : CellState)) ∈
      buildRows ["a"] 0 [["x"]]) := by
  constructor
  · decide
  · exact (C7_reload_resets (set_cell_color sampleTable 0 0 "#FF0000") initTable
      "b.csv" "b.csv" ["a"] [["x"]]).2.2.2 0 0 _ (by decide)

theorem get_clear_color_self (t : PriceTable) (r c : Int) :
    get_cell_state (clear_color t r c) r c =
      (get_cell_state t r c).map (fun st => { st with color := none }) :=
  dictGet_clearColor_self (r, c) t.cell_states

/-- C8 (against the spec-modelled `clear_color`): for every in-bounds
coordinate, `set_color` followed by `clear_color` followed by `get`
returns a cell state with unset color. -/
theorem C8_clear_color_roundtrip (t : PriceTable) (r c : Int) (color : String)
    (st0 : CellState) (h : get_cell_state t r c = some st0) :
    ∃ st, get_cell_state (clear_color (set_cell_color t r c color) r c) r c = some st ∧
      st.color = none := by
  have h1 : get_cell_state (set_cell_color t r c color) r c =
      some { st0 with color := some color } := by
    rw [get_set_cell_color_self, h]
    rfl
  refine ⟨{ st0 with color := none }, ?_, rfl⟩
  rw [get_clear_color_self, h1]
  rfl

/-- Witness for C8 at cell `(0, 1)` of the sample table. -/
theorem C8_clear_color_roundtrip_witness :
    ∃ st, get_cell_state
        (clear_color (set_cell_color sampleTable 0 1 "#FF0000") 0 1) 0 1 = some st ∧
      st.color = none :=
  C8_clear_color_roundtrip sampleTable 0 1 "#FF0000"
    { position := { row := 0, column := 1 }, content := "9.99", color := none }
    (by decide)

/-- C9 as stated is false: the click handler toggles the coordinate into
the selection set, but it returns `None` (the method is annotated
`-> None`), not the new membership boolean. -/
theorem C9_counterexample :
    ((0, 0) ∉ initTable.selected_cells) ∧
    ((0, 0) ∈ (on_click initTable 0 0).1.selected_cells) ∧
    (on_click initTable 0 0).2 ≠ some true := by
  refine ⟨by decide, by decide, by decide⟩

/-- C9 amended: the click toggle removes the coordinate if present and
inserts it otherwise, leaving all other coordinates untouched, but the
handler returns `None` rather than the new membership state. -/
theorem C9_toggle_membership (t : PriceTable) (r c : Int) :
    (((r, c) ∈ (on_click t r c).1.selected_cells) ↔ (r, c) ∉ t.selected_cells) ∧
    (∀ q : Int × Int, q ≠ (r, c) →
      (q ∈ (on_click t r c).1.selected_cells ↔ q ∈ t.selected_cells)) ∧
    (on_click t r c).2 = none := by
  by_cases h : (r, c) ∈ t.selected_cells
  · have hcl : on_click t r c =
        (({ t with
            last_clicked := some (r, c),
            selected_cells := t.selected_cells.erase (r, c) } : PriceTable), none) := by
      unfold on_click
      rw [if_pos h]
    rw [hcl]
    refine ⟨?_, ?_, rfl⟩
    · simp [Finset.mem_erase, h]
    · intro q hq
      simp [Finset.mem_erase, hq]
  · have hcl : on_click t r c =
        (({ t with
            last_clicked := some (r, c),
            selected_cells := insert (r, c) t.selected_cells } : PriceTable), none) := by
      unfold on_click
      rw [if_neg h]
    rw [hcl]
    refine ⟨?_, ?_, rfl⟩
    · simp [Finset.mem_insert, h]
    · intro q hq
      simp [Finset.mem_insert, hq]

/-- Witness for the amended statement of C9: toggling `(0, 0)` on a fresh
widget inserts it, leaves `(1, 2)` out, and returns `None`. -/
theorem C9_toggle_membership_witness :
    (((1 : Int), (2 : Int)) ≠ ((0 : Int), (0 : Int))) ∧
    (((1, 2) ∈ (on_click initTable 0 0).1.selected_cells) ↔
      ((1, 2) ∈ initTable.selected_cells)) :=
  ⟨by decide, (C9_toggle_membership initTable 0 0).2.1 (1, 2) (by decide)⟩

/-- C10: setting the color of a cell to the empty string leaves `get` reporting
that state with color `""` (set), yet the export excludes the cell; the
export filter treats falsy colors (`None` or `""`) as unannotated, so the
export records are exactly the entries with a non-empty color string. -/
theorem C10_empty_color_excluded (ops : List Op) (r c : Int) (st0 : CellState)
    (h : get_cell_state (run ops) r c = some st0) :
    (get_cell_state (set_cell_color (run ops) r c "") r c =
      some { st0 with color := some "" }) ∧
    (∀ rec ∈ (export_to_json (set_cell_color (run ops) r c "")).cells,
      rec.position ≠ { row := r, column := c }) ∧
    (∀ rec : CellRecord,
      rec ∈ (export_to_json (set_cell_color (run ops) r c "")).cells ↔
        ∃ kv ∈ (set_cell_color (run ops) r c "").cell_states,
          kv.2.color ≠ none ∧ kv.2.color ≠ some "" ∧ rec = kv.2.to_dict) := by
  have hinv : storeInv (set_cell_color (run ops) r c "").cell_states :=
    storeInv_set_cell_color r c "" (storeInv_run ops)
  have h1 : get_cell_state (set_cell_color (run ops) r c "") r c =
      some { st0 with color := some "" } := by
    rw [get_set_cell_color_self, h]
    rfl
  refine ⟨h1, ?_, ?_⟩
  · intro rec hrec hpos
    have hex := (export_position_mem hinv r c).mp ⟨rec, hrec, hpos⟩
    rcases hex with ⟨st, hget, htr⟩
    rw [h1] at hget
    have hst : st = { st0 with color := some "" } := (Option.some_injective _ hget).symm
    rw [hst] at htr
    simp [pyTruthy] at htr
  · intro rec
    rw [export_cells_mem]
    constructor
    · rintro ⟨kv, hkv, htr, hrec⟩
      rcases (pyTruthy_iff kv.2.color).mp htr with ⟨hn, he⟩
      exact ⟨kv, hkv, hn, he, hrec⟩
    · rintro ⟨kv, hkv, hn, he, hrec⟩
      exact ⟨kv, hkv, (pyTruthy_iff kv.2.color).mpr ⟨hn, he⟩, hrec⟩

/-- Witness for C10 at cell `(0, 1)` of the sample data: after setting the
color to `""`, `get` reports the state with color `""`. -/
theorem C10_empty_color_excluded_witness :
    get_cell_state (set_cell_color (run [Op.load "prices.csv"
        (some (["name", "price"], [["Widget", "9.99"], ["Gadget", "14.50"]]))]) 0 1 "") 0 1 =
      some { position := { row := 0, column := 1 }, content := "9.99", color := some "" } :=
  (C10_empty_color_excluded
    [Op.load "prices.csv" (some (["name", "price"], [["Widget", "9.99"], ["Gadget", "14.50"]]))]
    0 1 { position := { row := 0, column := 1 }, content := "9.99", color := none }
    (by decide)).1

end PriceParser
